import Mathlib

/-!
Shallow embedding of the `agentic-protos` counter store (`src/database.rs`,
`src/tdd_sample.rs`).  The persistent SQLite table `counters` is modelled as an
association list from counter ids to rows; each `Database` method becomes a
pure function threading the store explicitly.  Counter values are `i32` in the
source, embedded as `Int` with an explicit wrap-around at `2^32` (`wrapI32`)
at the one place the source performs unchecked arithmetic
(`current_value + amount` in `increment_counter`, `a + b` in `add_two`).
The `average_increment` column is SQLite REAL; it is embedded as `ℚ`, which is
exact on every value the store ever computes (running means of integers).
-/

set_option maxHeartbeats 1000000

namespace AgenticProtos

/-- Wrap-around semantics of Rust `i32` addition results: reduce an integer
modulo `2^32` into the interval `[-2^31, 2^31)`. -/
def wrapI32 (x : Int) : Int :=
  (x + 2 ^ 31) % 2 ^ 32 - 2 ^ 31

/-- Reinterpretation of an arbitrary integer as an `i32` bit pattern: take the
residue modulo `2^32` and shift the upper half down by `2^32`. -/
def reinterpretI32 (x : Int) : Int :=
  if x % 2 ^ 32 < 2 ^ 31 then x % 2 ^ 32 else x % 2 ^ 32 - 2 ^ 32

/-- Membership in the `i32` range `[-2^31, 2^31 - 1]`. -/
def inRangeI32 (x : Int) : Prop :=
  -(2 ^ 31) ≤ x ∧ x ≤ 2 ^ 31 - 1

instance (x : Int) : Decidable (inRangeI32 x) := by
  unfold inRangeI32; infer_instance

/-- Translated from `src/tdd_sample.rs` `add_two`: unchecked `i32` addition
`a + b`. -/
def add_two (a b : Int) : Int :=
  wrapI32 (a + b)

/-- One row of the `counters` table.  Columns per the persisted schema:
`id` (the association-list key), `value`, `total_increments` (default 0),
`average_increment` (default 0), `highest_value` (default 0), plus the
`description` column that `ensure_main_counter` writes. -/
structure CounterRow where
  value : Int
  total_increments : Int
  average_increment : ℚ
  highest_value : Int
  description : Option String
  deriving Repr, DecidableEq

/-- Schema defaults for the statistics columns of a freshly inserted row. -/
def defaultRow (v : Int) : CounterRow :=
  { value := v
    total_increments := 0
    average_increment := 0
    highest_value := 0
    description := none }

/-- The `counters` table: an association list from counter id to row. -/
abbrev Store : Type := List (String × CounterRow)

/-- The empty `counters` table (state of a freshly created database before
bootstrap). -/
def emptyStore : Store := []

/-- Embedding of `SELECT ... FROM counters WHERE id = ?`: first row whose key
matches. -/
def lookupCounter : Store → String → Option CounterRow
  | [], _ => none
  | (k, r) :: rest, id => if k = id then some r else lookupCounter rest id

/-- Row for `id` if present, else the all-defaults absent row (value 0). -/
def rowOrDefault (s : Store) (id : String) : CounterRow :=
  (lookupCounter s id).getD (defaultRow 0)

/-- Upsert of a full row under a primary key: replace the first binding of the
key, or append a new binding. -/
def insertRow : Store → String → CounterRow → Store
  | [], id, r => [(id, r)]
  | (k, r0) :: rest, id, r =>
      if k = id then (k, r) :: rest else (k, r0) :: insertRow rest id r

/-- Embedding of `DELETE FROM counters WHERE id = ?`: drop every binding of the
key. -/
def eraseAll (s : Store) (id : String) : Store :=
  s.filter (fun p => !decide (p.1 = id))

/-- The ID used for the main application counter (`MAIN_COUNTER_ID`). -/
def MAIN_COUNTER_ID : String := "main_counter"

/-- Modelled from the spec: the effect of
`INSERT OR REPLACE INTO counters (id, value) VALUES (?, ?)` under the
repository's schema and triggers, whose migration SQL files are not under
`src/`.  Per the spec, `set` "upserts the row, replacing the stored value
unconditionally" and "does not update derived statistics": an existing row
keeps its statistics columns, a fresh row gets the schema defaults
(`total_increments` 0, `average_increment` 0, `highest_value` 0). -/
def set_counter (s : Store) (id : String) (v : Int) : Store :=
  match lookupCounter s id with
  | some r => insertRow s id { r with value := v }
  | none => insertRow s id (defaultRow v)

/-- Modelled from the spec: the statistics trigger attached to the `counters`
table (its migration SQL file is not under `src/`).  Per the spec, "every
successful increment increases `total_increments` by one, recomputes
`average_increment` as the running mean of all increment amounts, and raises
`highest_value` to `max(highest_value, new_value)`". -/
def incRow (r : CounterRow) (amount : Int) (new_value : Int) : CounterRow :=
  { value := new_value
    total_increments := r.total_increments + 1
    average_increment :=
      (r.average_increment * (r.total_increments : ℚ) + (amount : ℚ)) /
        ((r.total_increments : ℚ) + 1)
    highest_value := max r.highest_value new_value
    description := r.description }

/-- Translated from `Database::increment_counter`: read the current value
(0 when the row is absent), compute `new_value = current_value + amount` with
unchecked `i32` arithmetic, write the row back; the statistics columns are
updated by the trigger (`incRow`). -/
def increment_counter (s : Store) (id : String) (amount : Int) : Int × Store :=
  let current_value : Int :=
    match lookupCounter s id with
    | some r => r.value
    | none => 0
  let new_value := wrapI32 (current_value + amount)
  (new_value, insertRow s id (incRow (rowOrDefault s id) amount new_value))

/-- Translated from `Database::get_counter`: return the stored value, or create
the row at 0 via `set_counter` and return 0. -/
def get_counter (s : Store) (id : String) : Int × Store :=
  match lookupCounter s id with
  | some r => (r.value, s)
  | none => (0, set_counter s id 0)

/-- Translated from `Database::get_counter_stats`: a read-only query returning
the four fields when the row exists; the store component records that the call
leaves the state untouched. -/
def get_counter_stats (s : Store) (id : String) :
    Option (Int × Int × ℚ × Int) × Store :=
  (match lookupCounter s id with
   | some r =>
       some (r.value, r.total_increments, r.average_increment, r.highest_value)
   | none => none, s)

/-- Translated from `Database::delete_counter`: delete the row, report whether
any row was affected. -/
def delete_counter (s : Store) (id : String) : Bool × Store :=
  ((lookupCounter s id).isSome, eraseAll s id)

/-- Translated from `Database::ensure_main_counter`: insert the main counter
row `(id, 0, description)` unless it already exists. -/
def ensure_main_counter (s : Store) : Store :=
  if (lookupCounter s MAIN_COUNTER_ID).isSome then s
  else
    insertRow s MAIN_COUNTER_ID
      { defaultRow 0 with description := some "Main application counter" }

/-- Database bootstrap state: the set of applied migration markers together
with the counters table. -/
structure DbState where
  applied : List String
  counters : Store
  deriving Repr, DecidableEq

/-- Modelled from the spec: `Database::apply_migrations` delegates to the sqlx
`Migrator`, whose migration scripts and bookkeeping are not under `src/`.  Per
the spec, upgrades are applied "in a deterministic, idempotent, ordered
sequence (each upgrade step applied at most once, tracked by a persisted
marker)": markers not yet recorded are appended in order. -/
def apply_migrations (ms : List String) (st : DbState) : DbState :=
  { st with applied := st.applied ++ ms.filter (fun m => !decide (m ∈ st.applied)) }

/-- Translated from `Database::connect`: apply pending migrations, then ensure
the main counter row exists. -/
def connect_init (ms : List String) (st : DbState) : DbState :=
  let st1 := apply_migrations ms st
  { st1 with counters := ensure_main_counter st1.counters }

/-- Trace of a sequence of increments against one id: the list of returned
values together with the final store. -/
def applyIncrementsTrace (s : Store) (id : String) : List Int → List Int × Store
  | [] => ([], s)
  | a :: rest =>
      let res := increment_counter s id a
      let rec' := applyIncrementsTrace res.2 id rest
      (res.1 :: rec'.1, rec'.2)

/-- Final store after a sequence of increments against one id. -/
def applyIncrements (s : Store) (id : String) (as : List Int) : Store :=
  (applyIncrementsTrace s id as).2

/-- One store operation, for stating invariants over operation sequences. -/
inductive Op where
  | get (id : String)
  | inc (id : String) (amount : Int)
  | set (id : String) (v : Int)
  | del (id : String)
  deriving Repr, DecidableEq

/-- State transition of a single operation (the store component of each
`Database` method). -/
def applyOp (s : Store) : Op → Store
  | .get id => (get_counter s id).2
  | .inc id a => (increment_counter s id a).2
  | .set id v => set_counter s id v
  | .del id => (delete_counter s id).2

/-- State after a sequence of operations. -/
def applyOps (s : Store) (ops : List Op) : Store :=
  ops.foldl applyOp s

/-- Whether an operation is a `set`. -/
def Op.isSet : Op → Bool
  | .set _ _ => true
  | _ => false

/-! Supporting lemmas about the association-list store. -/

theorem lookup_insertRow_self (s : Store) (id : String) (r : CounterRow) :
    lookupCounter (insertRow s id r) id = some r := by
  induction s with
  | nil => simp [insertRow, lookupCounter]
  | cons p rest ih =>
      obtain ⟨k, r0⟩ := p
      by_cases h : k = id <;> simp [insertRow, lookupCounter, h, ih]

theorem lookup_insertRow_ne (s : Store) (id id' : String) (r : CounterRow)
    (h : id' ≠ id) :
    lookupCounter (insertRow s id r) id' = lookupCounter s id' := by
  induction s with
  | nil => simp [insertRow, lookupCounter, Ne.symm h]
  | cons p rest ih =>
      obtain ⟨k, r0⟩ := p
      by_cases hk : k = id
      · subst hk
        simp [insertRow, lookupCounter, Ne.symm h]
      · by_cases hk' : k = id'
        · subst hk'
          simp [insertRow, lookupCounter, hk, h]
        · simp [insertRow, lookupCounter, hk, hk', ih]

theorem lookup_erase_self (s : Store) (id : String) :
    lookupCounter (eraseAll s id) id = none := by
  induction s with
  | nil => simp [eraseAll, lookupCounter]
  | cons p rest ih =>
      obtain ⟨k, r⟩ := p
      by_cases h : k = id <;>
        simpa [eraseAll, List.filter_cons, h, lookupCounter] using ih

theorem lookup_erase_ne (s : Store) (id id' : String) (h : id' ≠ id) :
    lookupCounter (eraseAll s id) id' = lookupCounter s id' := by
  induction s with
  | nil => simp [eraseAll, lookupCounter]
  | cons p rest ih =>
      obtain ⟨k, r⟩ := p
      by_cases hk : k = id
      · subst hk
        simpa [eraseAll, List.filter_cons, lookupCounter, Ne.symm h] using ih
      · by_cases hk' : k = id'
        · subst hk'
          simp [eraseAll, List.filter_cons, lookupCounter, h]
        · simpa [eraseAll, List.filter_cons, lookupCounter, hk, hk'] using ih

theorem increment_counter_fst (s : Store) (id : String) (a : Int) :
    (increment_counter s id a).1 = wrapI32 ((rowOrDefault s id).value + a) := by
  cases h : lookupCounter s id <;>
    simp [increment_counter, rowOrDefault, h, defaultRow]

theorem increment_counter_snd (s : Store) (id : String) (a : Int) :
    (increment_counter s id a).2 =
      insertRow s id
        (incRow (rowOrDefault s id) a
          (wrapI32 ((rowOrDefault s id).value + a))) := by
  cases h : lookupCounter s id <;>
    simp [increment_counter, rowOrDefault, h, defaultRow]

theorem rowOrDefault_increment (s : Store) (id : String) (a : Int) :
    rowOrDefault (increment_counter s id a).2 id =
      incRow (rowOrDefault s id) a (wrapI32 ((rowOrDefault s id).value + a)) := by
  simp [increment_counter_snd, rowOrDefault, lookup_insertRow_self]

theorem wrapI32_eq_of_inRange (x : Int) (h : inRangeI32 x) : wrapI32 x = x := by
  unfold wrapI32
  unfold inRangeI32 at h
  simp only [(by norm_num : (2 : Int) ^ 31 = 2147483648),
    (by norm_num : (2 : Int) ^ 32 = 4294967296)] at h ⊢
  omega

theorem wrapI32_inRange (x : Int) : inRangeI32 (wrapI32 x) := by
  unfold wrapI32 inRangeI32
  simp only [(by norm_num : (2 : Int) ^ 31 = 2147483648),
    (by norm_num : (2 : Int) ^ 32 = 4294967296)]
  omega

theorem wrapI32_eq_reinterpret (x : Int) : wrapI32 x = reinterpretI32 x := by
  unfold wrapI32 reinterpretI32
  simp only [(by norm_num : (2 : Int) ^ 31 = 2147483648),
    (by norm_num : (2 : Int) ^ 32 = 4294967296)]
  split <;> omega

theorem applyIncrements_nil (s : Store) (id : String) :
    applyIncrements s id [] = s := rfl

theorem applyIncrements_cons (s : Store) (id : String) (a : Int) (as : List Int) :
    applyIncrements s id (a :: as) =
      applyIncrements (increment_counter s id a).2 id as := rfl

theorem lookup_increment_eq_some (s : Store) (id : String) (a : Int) :
    lookupCounter (increment_counter s id a).2 id =
      some (rowOrDefault (increment_counter s id a).2 id) := by
  rw [increment_counter_snd]
  simp [rowOrDefault, lookup_insertRow_self]

theorem incRow_avg_mul (r : CounterRow) (a nv : Int)
    (h : 0 ≤ r.total_increments) :
    (incRow r a nv).average_increment * ((incRow r a nv).total_increments : ℚ)
      = r.average_increment * (r.total_increments : ℚ) + (a : ℚ) := by
  simp only [incRow]
  have h' : (0 : ℚ) ≤ (r.total_increments : ℚ) := by exact_mod_cast h
  have hne : ((r.total_increments : ℚ) + 1) ≠ 0 := by
    refine ne_of_gt ?_
    linarith
  push_cast
  exact div_mul_cancel₀ _ hne

theorem applyIncrements_total (as : List Int) : ∀ (s : Store) (id : String),
    (rowOrDefault (applyIncrements s id as) id).total_increments
      = (rowOrDefault s id).total_increments + as.length := by
  induction as with
  | nil => intro s id; simp [applyIncrements_nil]
  | cons a rest ih =>
      intro s id
      rw [applyIncrements_cons, ih, rowOrDefault_increment]
      simp only [incRow, List.length_cons]
      push_cast
      ring

theorem applyIncrements_avg (as : List Int) : ∀ (s : Store) (id : String),
    0 ≤ (rowOrDefault s id).total_increments →
    (rowOrDefault (applyIncrements s id as) id).average_increment *
        ((rowOrDefault (applyIncrements s id as) id).total_increments : ℚ)
      = (rowOrDefault s id).average_increment *
          ((rowOrDefault s id).total_increments : ℚ) + (as.sum : ℚ) := by
  induction as with
  | nil => intro s id h; simp [applyIncrements_nil]
  | cons a rest ih =>
      intro s id h
      rw [applyIncrements_cons]
      have h1 : 0 ≤ (rowOrDefault (increment_counter s id a).2 id).total_increments := by
        rw [rowOrDefault_increment]
        simp only [incRow]
        omega
      have hIH := ih (increment_counter s id a).2 id h1
      rw [hIH, rowOrDefault_increment, incRow_avg_mul _ _ _ h]
      simp only [List.sum_cons]
      push_cast
      ring

theorem fresh_total (id : String) (as : List Int) :
    (rowOrDefault (applyIncrements emptyStore id as) id).total_increments
      = as.length := by
  have h0 : rowOrDefault emptyStore id = defaultRow 0 := rfl
  have htot := applyIncrements_total as emptyStore id
  rw [h0] at htot
  simpa [defaultRow] using htot

theorem fresh_avg (id : String) (as : List Int) :
    (rowOrDefault (applyIncrements emptyStore id as) id).average_increment
      = (as.sum : ℚ) / (as.length : ℚ) := by
  have h0 : rowOrDefault emptyStore id = defaultRow 0 := rfl
  have havg := applyIncrements_avg as emptyStore id (by rw [h0]; exact le_refl 0)
  rw [h0, fresh_total] at havg
  simp only [defaultRow] at havg
  rcases Nat.eq_zero_or_pos as.length with hlen | hlen
  · have hnil : as = [] := List.length_eq_zero.mp hlen
    subst hnil
    simp [applyIncrements_nil, h0, defaultRow]
  · have hne : ((as.length : ℚ)) ≠ 0 := by
      refine ne_of_gt ?_
      exact_mod_cast hlen
    rw [eq_div_iff hne]
    push_cast at havg ⊢
    linarith

theorem mainScenarioRow :
    rowOrDefault (applyIncrements emptyStore "main" [1, 2, 5, 10]) "main"
      = ⟨18, 4, 9 / 2, 18, none⟩ := by
  have e : applyIncrements emptyStore "main" [1, 2, 5, 10]
      = (increment_counter
          (increment_counter
            (increment_counter
              (increment_counter emptyStore "main" 1).2 "main" 2).2 "main" 5).2
          "main" 10).2 := rfl
  rw [e, rowOrDefault_increment, rowOrDefault_increment, rowOrDefault_increment,
    rowOrDefault_increment]
  have e0 : rowOrDefault emptyStore "main" = defaultRow 0 := rfl
  rw [e0]
  simp only [incRow, defaultRow]
  norm_num [wrapI32]

/-- C1: every successful increment(id, amount) increases the stored
`total_increments` by exactly one, recomputes `average_increment` as the
arithmetic mean of all increment amounts applied so far (for a counter built
by increments from the empty store, it equals `sum / length` of the amounts),
and sets `highest_value` to `max(highest_value, new_value)`; in particular,
from the empty store the increment sequence 1, 2, 5, 10 on one id returns
1, 3, 8, 18 and leaves stats equal to (18, 4, 9/2, 18). -/
theorem C1_increment_maintains_stats :
    (∀ (s : Store) (id : String) (a : Int),
        lookupCounter (increment_counter s id a).2 id =
          some { value := (increment_counter s id a).1
                 total_increments := (rowOrDefault s id).total_increments + 1
                 average_increment :=
                   ((rowOrDefault s id).average_increment *
                        ((rowOrDefault s id).total_increments : ℚ) + (a : ℚ)) /
                     (((rowOrDefault s id).total_increments : ℚ) + 1)
                 highest_value :=
                   max (rowOrDefault s id).highest_value (increment_counter s id a).1
                 description := (rowOrDefault s id).description })
  ∧ (∀ (id : String) (as : List Int),
        (rowOrDefault (applyIncrements emptyStore id as) id).total_increments
            = as.length
      ∧ (rowOrDefault (applyIncrements emptyStore id as) id).average_increment
            = (as.sum : ℚ) / (as.length : ℚ))
  ∧ (applyIncrementsTrace emptyStore "main" [1, 2, 5, 10]).1 = [1, 3, 8, 18]
  ∧ (get_counter_stats (applyIncrements emptyStore "main" [1, 2, 5, 10]) "main").1
      = some (18, 4, (9 : ℚ) / 2, 18) := by
  refine ⟨?_, ?_, ?_, ?_⟩
  · intro s id a
    rw [increment_counter_snd, lookup_insertRow_self, increment_counter_fst]
    rfl
  · intro id as
    exact ⟨fresh_total id as, fresh_avg id as⟩
  · decide
  · have e4 : applyIncrements emptyStore "main" [1, 2, 5, 10]
        = (increment_counter (applyIncrements emptyStore "main" [1, 2, 5])
            "main" 10).2 := rfl
    have hl := lookup_increment_eq_some
      (applyIncrements emptyStore "main" [1, 2, 5]) "main" 10
    rw [← e4, mainScenarioRow] at hl
    simp [get_counter_stats, hl]

theorem scanl_cons_tail (f : Int → Int → Int) (b : Int) (l : List Int) :
    List.scanl f b l = b :: (List.scanl f b l).tail := by
  cases l <;> simp [List.scanl]

theorem trace_exact (as : List Int) : ∀ (s : Store) (id : String),
    (∀ x ∈ List.scanl (· + ·) (rowOrDefault s id).value as, inRangeI32 x) →
    (applyIncrementsTrace s id as).1
        = (List.scanl (· + ·) (rowOrDefault s id).value as).tail
  ∧ (rowOrDefault (applyIncrementsTrace s id as).2 id).value
        = (rowOrDefault s id).value + as.sum := by
  induction as with
  | nil => intro s id h; simp [applyIncrementsTrace]
  | cons a rest ih =>
      intro s id h
      have hmem : inRangeI32 ((rowOrDefault s id).value + a) := by
        apply h
        rw [List.scanl_cons]
        refine List.mem_append_right _ ?_
        rw [scanl_cons_tail (· + ·) ((rowOrDefault s id).value + a) rest]
        exact List.mem_cons_self _ _
      have hwrap : wrapI32 ((rowOrDefault s id).value + a)
          = (rowOrDefault s id).value + a := wrapI32_eq_of_inRange _ hmem
      have hval1 : (rowOrDefault (increment_counter s id a).2 id).value
          = (rowOrDefault s id).value + a := by
        rw [rowOrDefault_increment]
        simp [incRow, hwrap]
      have hrest := ih (increment_counter s id a).2 id (by
        rw [hval1]
        intro x hx
        apply h
        rw [List.scanl_cons]
        exact List.mem_append_right _ hx)
      have t1 := hrest.1
      have t2 := hrest.2
      rw [hval1] at t1 t2
      constructor
      · calc (applyIncrementsTrace s id (a :: rest)).1
            = (increment_counter s id a).1 ::
                (applyIncrementsTrace (increment_counter s id a).2 id rest).1 := rfl
          _ = ((rowOrDefault s id).value + a) ::
                (List.scanl (· + ·) ((rowOrDefault s id).value + a) rest).tail := by
                rw [t1, increment_counter_fst, hwrap]
          _ = List.scanl (· + ·) ((rowOrDefault s id).value + a) rest :=
                (scanl_cons_tail _ _ _).symm
          _ = (List.scanl (· + ·) (rowOrDefault s id).value (a :: rest)).tail := by
                rw [List.scanl_cons]
                rfl
      · calc (rowOrDefault (applyIncrementsTrace s id (a :: rest)).2 id).value
            = (rowOrDefault
                (applyIncrementsTrace (increment_counter s id a).2 id rest).2 id).value := rfl
          _ = (rowOrDefault s id).value + a + rest.sum := t2
          _ = (rowOrDefault s id).value + (a :: rest).sum := by
                rw [List.sum_cons]
                ring

/-- C2 counterexample: with the store's `i32` arithmetic, incrementing a
counter whose stored value is 2147483647 by 1 returns -2147483648, not the
previous value plus 1, so the claim as stated fails on this input. -/
theorem C2_counterexample :
    (rowOrDefault (increment_counter emptyStore "c" 2147483647).2 "c").value
        = 2147483647
  ∧ (increment_counter (increment_counter emptyStore "c" 2147483647).2 "c" 1).1
        = -2147483648
  ∧ (-2147483648 : Int) ≠ 2147483647 + 1 := by
  refine ⟨by decide, by decide, by decide⟩

/-- C2 (amended): for every counter id and every finite sequence of increment
amounts whose running sums all stay within the `i32` range, applied to that id
starting from an absent counter, each increment returns the previous value
plus the amount (the trace of returned values is the list of partial sums),
and after the whole sequence the stored value equals the sum of the amounts
and `total_increments` equals the length of the sequence. -/
theorem C2_sequence_of_increments (id : String) (as : List Int)
    (h : ∀ x ∈ List.scanl (· + ·) (0 : Int) as, inRangeI32 x) :
    (applyIncrementsTrace emptyStore id as).1
        = (List.scanl (· + ·) (0 : Int) as).tail
  ∧ (rowOrDefault (applyIncrementsTrace emptyStore id as).2 id).value = as.sum
  ∧ (rowOrDefault (applyIncrementsTrace emptyStore id as).2 id).total_increments
        = as.length := by
  have h0 : (rowOrDefault emptyStore id).value = 0 := rfl
  have hx := trace_exact as emptyStore id (by rw [h0]; exact h)
  refine ⟨?_, ?_, fresh_total id as⟩
  · rw [hx.1, h0]
  · rw [hx.2, h0, zero_add]

/-- C2 witness: the amended theorem applied to the concrete sequence
`[1, 2]` on a fresh id. -/
theorem C2_sequence_of_increments_witness :
    (applyIncrementsTrace emptyStore "w2" [1, 2]).1 = [1, 3]
  ∧ (rowOrDefault (applyIncrementsTrace emptyStore "w2" [1, 2]).2 "w2").value = 3
  ∧ (rowOrDefault (applyIncrementsTrace emptyStore "w2" [1, 2]).2
        "w2").total_increments = 2 := by
  have hc := C2_sequence_of_increments "w2" [1, 2] (by decide)
  refine ⟨?_, hc.2.1, hc.2.2⟩
  rw [hc.1]
  rfl

theorem set_counter_existing (s : Store) (id : String) (v : Int)
    (r : CounterRow) (h : lookupCounter s id = some r) :
    set_counter s id v = insertRow s id { r with value := v } := by
  simp [set_counter, h]

theorem set_counter_absent (s : Store) (id : String) (v : Int)
    (h : lookupCounter s id = none) :
    set_counter s id v = insertRow s id (defaultRow v) := by
  simp [set_counter, h]

/-- Rows never exceed their recorded highest value. -/
def HVInv (s : Store) : Prop :=
  ∀ (id : String) (r : CounterRow),
    lookupCounter s id = some r → r.value ≤ r.highest_value

theorem HVInv_applyOp (s : Store) (op : Op) (hs : HVInv s)
    (hop : op.isSet = false) : HVInv (applyOp s op) := by
  cases op with
  | get tid =>
      intro id' r' hr'
      cases h0 : lookupCounter s tid with
      | some r0 =>
          rw [show applyOp s (Op.get tid) = s from by
            simp [applyOp, get_counter, h0]] at hr'
          exact hs id' r' hr'
      | none =>
          rw [show applyOp s (Op.get tid) = insertRow s tid (defaultRow 0) from by
            simp [applyOp, get_counter, h0, set_counter]] at hr'
          by_cases hid : id' = tid
          · subst hid
            rw [lookup_insertRow_self] at hr'
            cases hr'
            exact le_refl 0
          · rw [lookup_insertRow_ne _ _ _ _ hid] at hr'
            exact hs id' r' hr'
  | inc tid a =>
      intro id' r' hr'
      rw [show applyOp s (Op.inc tid a) = (increment_counter s tid a).2 from rfl,
        increment_counter_snd] at hr'
      by_cases hid : id' = tid
      · subst hid
        rw [lookup_insertRow_self] at hr'
        cases hr'
        exact le_max_right _ _
      · rw [lookup_insertRow_ne _ _ _ _ hid] at hr'
        exact hs id' r' hr'
  | set tid v => simp [Op.isSet] at hop
  | del tid =>
      intro id' r' hr'
      by_cases hid : id' = tid
      · subst hid
        rw [show applyOp s (Op.del id') = eraseAll s id' from rfl,
          lookup_erase_self] at hr'
        cases hr'
      · rw [show applyOp s (Op.del tid) = eraseAll s tid from rfl,
          lookup_erase_ne _ _ _ hid] at hr'
        exact hs id' r' hr'

theorem HVInv_applyOps (ops : List Op) : ∀ (s : Store), HVInv s →
    (∀ op ∈ ops, op.isSet = false) → HVInv (applyOps s ops) := by
  induction ops with
  | nil => intro s hs _; exact hs
  | cons op rest ih =>
      intro s hs hops
      exact ih (applyOp s op)
        (HVInv_applyOp s op hs (hops op (List.mem_cons_self _ _)))
        (fun o ho => hops o (List.mem_cons_of_mem _ ho))

theorem total_mono_applyOp (s : Store) (op : Op) (id : String)
    (r r' : CounterRow) (h : lookupCounter s id = some r)
    (h' : lookupCounter (applyOp s op) id = some r') :
    r.total_increments ≤ r'.total_increments := by
  cases op with
  | get tid =>
      cases h0 : lookupCounter s tid with
      | some r0 =>
          rw [show applyOp s (Op.get tid) = s from by
            simp [applyOp, get_counter, h0], h] at h'
          cases h'
          exact le_refl _
      | none =>
          rw [show applyOp s (Op.get tid) = insertRow s tid (defaultRow 0) from by
            simp [applyOp, get_counter, h0, set_counter]] at h'
          by_cases hid : id = tid
          · subst hid
            rw [h0] at h
            cases h
          · rw [lookup_insertRow_ne _ _ _ _ hid, h] at h'
            cases h'
            exact le_refl _
  | inc tid a =>
      rw [show applyOp s (Op.inc tid a) = (increment_counter s tid a).2 from rfl,
        increment_counter_snd] at h'
      by_cases hid : id = tid
      · subst hid
        rw [lookup_insertRow_self] at h'
        cases h'
        simp only [incRow]
        have : rowOrDefault s id = r := by simp [rowOrDefault, h]
        rw [this]
        omega
      · rw [lookup_insertRow_ne _ _ _ _ hid, h] at h'
        cases h'
        exact le_refl _
  | set tid v =>
      cases h0 : lookupCounter s tid with
      | some r0 =>
          rw [show applyOp s (Op.set tid v) = set_counter s tid v from rfl,
            set_counter_existing s tid v r0 h0] at h'
          by_cases hid : id = tid
          · subst hid
            rw [lookup_insertRow_self] at h'
            rw [h0] at h
            cases h
            cases h'
            exact le_refl _
          · rw [lookup_insertRow_ne _ _ _ _ hid, h] at h'
            cases h'
            exact le_refl _
      | none =>
          rw [show applyOp s (Op.set tid v) = set_counter s tid v from rfl,
            set_counter_absent s tid v h0] at h'
          by_cases hid : id = tid
          · subst hid
            rw [h0] at h
            cases h
          · rw [lookup_insertRow_ne _ _ _ _ hid, h] at h'
            cases h'
            exact le_refl _
  | del tid =>
      by_cases hid : id = tid
      · subst hid
        rw [show applyOp s (Op.del id) = eraseAll s id from rfl,
          lookup_erase_self] at h'
        cases h'
      · rw [show applyOp s (Op.del tid) = eraseAll s tid from rfl,
          lookup_erase_ne _ _ _ hid, h] at h'
        cases h'
        exact le_refl _

/-- C3 counterexample: from the empty store, `set("c", 100)` leaves a row
whose value 100 exceeds its `highest_value` 0, so the invariant
`highest_value ≥ value` does not survive every operation sequence that
includes `set`. -/
theorem C3_counterexample :
    (rowOrDefault (set_counter emptyStore "c" 100) "c").value = 100
  ∧ (rowOrDefault (set_counter emptyStore "c" 100) "c").highest_value = 0
  ∧ ¬ ((rowOrDefault (set_counter emptyStore "c" 100) "c").value
        ≤ (rowOrDefault (set_counter emptyStore "c" 100) "c").highest_value) := by
  refine ⟨by decide, by decide, by decide⟩

/-- C3 (amended): after every sequence of get, increment and delete
operations (excluding `set`, which does not maintain the derived statistics),
every stored row satisfies `value ≤ highest_value`; and no single store
operation (including `set`) lowers `total_increments` of a row that exists
before and after it. -/
theorem C3_invariants :
    (∀ (ops : List Op), (∀ op ∈ ops, op.isSet = false) →
        ∀ (id : String) (r : CounterRow),
          lookupCounter (applyOps emptyStore ops) id = some r →
          r.value ≤ r.highest_value)
  ∧ (∀ (s : Store) (op : Op) (id : String) (r r' : CounterRow),
        lookupCounter s id = some r →
        lookupCounter (applyOp s op) id = some r' →
        r.total_increments ≤ r'.total_increments) := by
  constructor
  · intro ops hops id r hr
    exact HVInv_applyOps ops emptyStore (fun id r h => by cases h) hops id r hr
  · intro s op id r r' h h'
    exact total_mono_applyOp s op id r r' h h'

/-- C3 witness: the amended invariants applied to the concrete sequence
`[get "a"]` from the empty store, and to a delete of an unrelated id against a
one-row store. -/
theorem C3_invariants_witness :
    lookupCounter (applyOps emptyStore [Op.get "a"]) "a" = some (defaultRow 0)
  ∧ (defaultRow 0).value ≤ (defaultRow 0).highest_value
  ∧ lookupCounter (applyOp [("a", defaultRow 0)] (Op.del "b")) "a"
        = some (defaultRow 0)
  ∧ (defaultRow 0).total_increments ≤ (defaultRow 0).total_increments := by
  have h2 : lookupCounter (applyOps emptyStore [Op.get "a"]) "a"
      = some (defaultRow 0) := by decide
  have h3 : lookupCounter [("a", defaultRow 0)] "a" = some (defaultRow 0) := by
    decide
  have h4 : lookupCounter (applyOp [("a", defaultRow 0)] (Op.del "b")) "a"
      = some (defaultRow 0) := by decide
  exact ⟨h2, C3_invariants.1 [Op.get "a"] (by decide) "a" (defaultRow 0) h2,
    h4, C3_invariants.2 [("a", defaultRow 0)] (Op.del "b") "a"
      (defaultRow 0) (defaultRow 0) h3 h4⟩

/-- C4: for every id and value, `set(id, value)` upserts the row so that the
stored value becomes exactly the given value, and it leaves the derived
statistics fields (`total_increments`, `average_increment`, `highest_value`)
unchanged: an existing row keeps its statistics, an absent row receives the
schema defaults. -/
theorem C4_set_counter_frame (s : Store) (id : String) (v : Int) :
    (rowOrDefault (set_counter s id v) id).value = v
  ∧ (rowOrDefault (set_counter s id v) id).total_increments
        = (rowOrDefault s id).total_increments
  ∧ (rowOrDefault (set_counter s id v) id).average_increment
        = (rowOrDefault s id).average_increment
  ∧ (rowOrDefault (set_counter s id v) id).highest_value
        = (rowOrDefault s id).highest_value
  ∧ (∀ r : CounterRow, lookupCounter s id = some r →
        lookupCounter (set_counter s id v) id = some { r with value := v })
  ∧ (lookupCounter s id = none →
        lookupCounter (set_counter s id v) id = some (defaultRow v)) := by
  have hrow : rowOrDefault (set_counter s id v) id =
      match lookupCounter s id with
      | some r => { r with value := v }
      | none => defaultRow v := by
    cases h : lookupCounter s id with
    | some r =>
        rw [set_counter_existing s id v r h]
        simp [rowOrDefault, lookup_insertRow_self]
    | none =>
        rw [set_counter_absent s id v h]
        simp [rowOrDefault, lookup_insertRow_self]
  refine ⟨?_, ?_, ?_, ?_, ?_, ?_⟩
  · rw [hrow]; cases h : lookupCounter s id <;> simp [defaultRow]
  · rw [hrow]; cases h : lookupCounter s id <;> simp [rowOrDefault, h, defaultRow]
  · rw [hrow]; cases h : lookupCounter s id <;> simp [rowOrDefault, h, defaultRow]
  · rw [hrow]; cases h : lookupCounter s id <;> simp [rowOrDefault, h, defaultRow]
  · intro r h
    rw [set_counter_existing s id v r h, lookup_insertRow_self]
  · intro h
    rw [set_counter_absent s id v h, lookup_insertRow_self]

/-- C4 witness: the frame property applied to a one-row store, showing the
statistics of the existing row survive a `set` unchanged. -/
theorem C4_set_counter_frame_witness :
    lookupCounter [("a", (⟨3, 2, 7, 9, none⟩ : CounterRow))] "a"
        = some ⟨3, 2, 7, 9, none⟩
  ∧ lookupCounter (set_counter [("a", (⟨3, 2, 7, 9, none⟩ : CounterRow))] "a" 100)
        "a" = some ⟨100, 2, 7, 9, none⟩ := by
  refine ⟨by decide, ?_⟩
  exact (C4_set_counter_frame [("a", (⟨3, 2, 7, 9, none⟩ : CounterRow))] "a"
    100).2.2.2.2.1 ⟨3, 2, 7, 9, none⟩ (by decide)

theorem ensure_main_isSome (s : Store) :
    (lookupCounter (ensure_main_counter s) MAIN_COUNTER_ID).isSome = true := by
  by_cases h : (lookupCounter s MAIN_COUNTER_ID).isSome = true
  · simp [ensure_main_counter, h]
  · simp [ensure_main_counter, h, lookup_insertRow_self]

theorem ensure_main_noop (s : Store)
    (h : (lookupCounter s MAIN_COUNTER_ID).isSome = true) :
    ensure_main_counter s = s := by
  simp [ensure_main_counter, h]

theorem apply_migrations_applied (ms : List String) (st : DbState) (m : String)
    (h : m ∈ ms) : m ∈ (apply_migrations ms st).applied := by
  simp only [apply_migrations, List.mem_append]
  by_cases h2 : m ∈ st.applied
  · exact Or.inl h2
  · exact Or.inr (List.mem_filter.mpr ⟨h, by simpa using h2⟩)

theorem apply_migrations_noop (ms : List String) (st : DbState)
    (h : ∀ m ∈ ms, m ∈ st.applied) : apply_migrations ms st = st := by
  have hnil : ms.filter (fun m => !decide (m ∈ st.applied)) = [] := by
    induction ms with
    | nil => rfl
    | cons m rest ih =>
        have hm : m ∈ st.applied := h m (List.mem_cons_self _ _)
        simp only [List.filter_cons, hm]
        simpa using ih (fun x hx => h x (List.mem_cons_of_mem _ hx))
  simp [apply_migrations, hnil]

/-- C5: the initialization sequence (apply pending migrations, then seed the
main counter row) is idempotent: running it twice from any starting state
produces exactly the same applied-migration markers and data as running it
once, and re-running it against a fully migrated store that already holds the
main counter row is a no-op. -/
theorem C5_bootstrap_idempotent :
    (∀ (ms : List String) (st : DbState),
        connect_init ms (connect_init ms st) = connect_init ms st)
  ∧ (∀ (ms : List String) (st : DbState),
        (∀ m ∈ ms, m ∈ st.applied) →
        (lookupCounter st.counters MAIN_COUNTER_ID).isSome = true →
        connect_init ms st = st) := by
  constructor
  · intro ms st
    have h1 : apply_migrations ms (connect_init ms st) = connect_init ms st :=
      apply_migrations_noop _ _ (fun m hm => apply_migrations_applied ms st m hm)
    show { apply_migrations ms (connect_init ms st) with
            counters :=
              ensure_main_counter
                (apply_migrations ms (connect_init ms st)).counters }
        = connect_init ms st
    rw [h1]
    have h2 : ensure_main_counter (connect_init ms st).counters
        = (connect_init ms st).counters :=
      ensure_main_noop _ (ensure_main_isSome st.counters)
    rw [h2]
  · intro ms st hms hmain
    show { apply_migrations ms st with
            counters := ensure_main_counter (apply_migrations ms st).counters }
        = st
    rw [apply_migrations_noop ms st hms]
    rw [ensure_main_noop st.counters hmain]

/-- C5 witness: the no-op half applied to a concrete fully migrated and
populated state. -/
theorem C5_bootstrap_idempotent_witness :
    connect_init ["0001_init"]
        ⟨["0001_init"], [(MAIN_COUNTER_ID, defaultRow 0)]⟩
      = ⟨["0001_init"], [(MAIN_COUNTER_ID, defaultRow 0)]⟩ := by
  exact C5_bootstrap_idempotent.2 ["0001_init"]
    ⟨["0001_init"], [(MAIN_COUNTER_ID, defaultRow 0)]⟩
    (by decide) (by decide)

/-- C6: for every id with no existing counter row, `get(id)` creates a row
with value 0 as a side effect and returns 0, and a `stats(id)` call
immediately afterwards reports the snapshot (0, 0, 0, 0), in particular
`total_increments = 0`; for every id with an existing row, `get(id)` returns
the stored value and leaves the store unchanged. -/
theorem C6_get_creates_at_zero (s : Store) (id : String) :
    (lookupCounter s id = none →
        (get_counter s id).1 = 0
      ∧ lookupCounter (get_counter s id).2 id = some (defaultRow 0)
      ∧ (get_counter_stats (get_counter s id).2 id).1 = some (0, 0, 0, 0))
  ∧ (∀ r : CounterRow, lookupCounter s id = some r →
        get_counter s id = (r.value, s)) := by
  constructor
  · intro h
    have e : (get_counter s id).2 = insertRow s id (defaultRow 0) := by
      simp [get_counter, h, set_counter]
    refine ⟨by simp [get_counter, h], ?_, ?_⟩
    · rw [e, lookup_insertRow_self]
    · rw [e]
      simp [get_counter_stats, lookup_insertRow_self, defaultRow]
  · intro r h
    simp [get_counter, h]

/-- C6 witness: the absent-row half applied to the empty store. -/
theorem C6_get_creates_at_zero_witness :
    (get_counter emptyStore "x").1 = 0
  ∧ lookupCounter (get_counter emptyStore "x").2 "x" = some (defaultRow 0)
  ∧ (get_counter_stats (get_counter emptyStore "x").2 "x").1
        = some (0, 0, 0, 0) :=
  (C6_get_creates_at_zero emptyStore "x").1 rfl

/-- C8: `delete(id)` returns true exactly when a counter row with that id
existed (and removes every such row), returns false when no row existed, and a
`get(id)` immediately after deletion returns 0. -/
theorem C8_delete_counter (s : Store) (id : String) :
    (delete_counter s id).1 = (lookupCounter s id).isSome
  ∧ lookupCounter (delete_counter s id).2 id = none
  ∧ (get_counter (delete_counter s id).2 id).1 = 0 := by
  refine ⟨rfl, lookup_erase_self s id, ?_⟩
  simp [get_counter, delete_counter, lookup_erase_self s id]

/-- C9: `stats(id)` returns the four fields (value, total_increments,
average_increment, highest_value) when a row exists, returns absent when no
row exists, and in every case the store's state is unchanged by the call. -/
theorem C9_stats_snapshot (s : Store) (id : String) :
    (get_counter_stats s id).2 = s
  ∧ (lookupCounter s id = none → (get_counter_stats s id).1 = none)
  ∧ (∀ r : CounterRow, lookupCounter s id = some r →
        (get_counter_stats s id).1
          = some (r.value, r.total_increments, r.average_increment,
              r.highest_value)) := by
  refine ⟨rfl, ?_, ?_⟩
  · intro h
    simp [get_counter_stats, h]
  · intro r h
    simp [get_counter_stats, h]

/-- C9 witness: the snapshot property applied to a concrete one-row store. -/
theorem C9_stats_snapshot_witness :
    (get_counter_stats [("a", (⟨3, 2, 7, 9, none⟩ : CounterRow))] "a").2
        = [("a", (⟨3, 2, 7, 9, none⟩ : CounterRow))]
  ∧ (get_counter_stats [("a", (⟨3, 2, 7, 9, none⟩ : CounterRow))] "a").1
        = some (3, 2, 7, 9) := by
  have h := C9_stats_snapshot [("a", (⟨3, 2, 7, 9, none⟩ : CounterRow))] "a"
  exact ⟨h.1, h.2.2 ⟨3, 2, 7, 9, none⟩ (by decide)⟩

/-- C10: the counter value arithmetic is 32-bit: for operands in the `i32`
range whose mathematical sum lies within the `i32` range, both `add_two` and
the increment's `current + amount` return the exact sum; when the sum leaves
the range there is no overflow guard, and the result is not the mathematical
sum but the sum modulo `2^32` reinterpreted as an `i32`. -/
theorem C10_i32_arithmetic (a b : Int) (ha : inRangeI32 a) (hb : inRangeI32 b) :
    (inRangeI32 (a + b) →
        add_two a b = a + b
      ∧ ∀ (s : Store) (id : String), (rowOrDefault s id).value = a →
          (increment_counter s id b).1 = a + b)
  ∧ (¬ inRangeI32 (a + b) →
        add_two a b ≠ a + b
      ∧ add_two a b = reinterpretI32 (a + b)
      ∧ ∀ (s : Store) (id : String), (rowOrDefault s id).value = a →
          (increment_counter s id b).1 = reinterpretI32 (a + b)
        ∧ (increment_counter s id b).1 ≠ a + b) := by
  constructor
  · intro hsum
    refine ⟨wrapI32_eq_of_inRange _ hsum, ?_⟩
    intro s id hv
    rw [increment_counter_fst, hv]
    exact wrapI32_eq_of_inRange _ hsum
  · intro hsum
    have hne : wrapI32 (a + b) ≠ a + b := by
      intro he
      exact hsum (he ▸ wrapI32_inRange (a + b))
    refine ⟨hne, wrapI32_eq_reinterpret _, ?_⟩
    intro s id hv
    rw [increment_counter_fst, hv]
    exact ⟨wrapI32_eq_reinterpret _, hne⟩

/-- C10 witness: the overflow half applied to `i32::MAX` and 1. -/
theorem C10_i32_arithmetic_witness :
    add_two 2147483647 1 = -2147483648
  ∧ add_two 2147483647 1 ≠ 2147483647 + 1 := by
  have h := (C10_i32_arithmetic 2147483647 1 (by decide) (by decide)).2 (by decide)
  exact ⟨by decide, h.1⟩

end AgenticProtos
